import Mathlib

/-!
Verification of the multithreaded TCP file-transfer server/client
(`pa4-multithreaded-sockets`): a shallow embedding of the wire-framing
codec (`SocketUtils`), the client program (`runClient`), and the server's
connection registry and session lifecycle (`Server.cpp`), together with
proofs of the specified properties.

Bytes are modelled as `Char` (the C++ code works over `std::string`).
The delimiter `kDelimiter = "#"` has length 1, so the codec is embedded
with a single-character delimiter.
-/

namespace FileTransfer

/-- The delimiter byte `kDelimiter = "#"`. -/
def kDelimiter : Char := '#'

/-- The receive side of one TCP connection as seen by the codec:
`buffer` is the content of the `boost::asio::streambuf rcvBuffer`
(bytes already pulled off the socket, possibly over-read past a
delimiter), and `stream` is the sequence of bytes the peer has written
that have not yet been pulled into the buffer. -/
structure RecvState where
  buffer : List Char
  stream : List Char
deriving DecidableEq

/-- Index of the first occurrence of `delim` in a byte list
(`none` when absent).  Used to model `boost::asio::read_until`'s
delimiter search. -/
def firstDelimIdx (delim : Char) : List Char → Option Nat
  | [] => none
  | c :: rest =>
      if c = delim then some 0 else (firstDelimIdx delim rest).map (· + 1)

/-- `readUntilDelimiter(socket, rcvBuffer, delimiter)` from `SocketUtils`.

`boost::asio::read_until` first checks whether the buffer already holds
the delimiter; if so it reads nothing from the socket.  Otherwise it
pulls bytes from the socket in chunks until the delimiter appears in the
buffer; the chunking may over-read an arbitrary number `k` of extra
bytes past the delimiter (bounded by what the peer delivered).  We make
that nondeterminism explicit through the parameter `k`.  `read_until`
returns `bytesTransferred`, the offset just past the first delimiter;
the C++ code then extracts `bytesTransferred - delimiter.length()` bytes
as the result and `consume`s `bytesTransferred` bytes from the buffer,
leaving any over-read bytes in the buffer.  `none` models the error path
(stream closed before a delimiter was seen). -/
def readUntilDelimiter (st : RecvState) (delim : Char) (k : Nat) :
    Option (List Char × RecvState) :=
  match firstDelimIdx delim st.buffer with
  | some p =>
      -- delimiter already resident in the buffer: read nothing;
      -- bytesTransferred = p + 1
      some (st.buffer.take p, ⟨st.buffer.drop (p + 1), st.stream⟩)
  | none =>
      match firstDelimIdx delim st.stream with
      | none => none
      | some q =>
          let pulled := min (q + 1 + k) st.stream.length
          let buf := st.buffer ++ st.stream.take pulled
          let bytesTransferred := st.buffer.length + (q + 1)
          some (buf.take (bytesTransferred - 1),
                ⟨buf.drop bytesTransferred, st.stream.drop pulled⟩)

/-- `readBytes(socket, rcvBuffer, numBytesToRead)` from `SocketUtils`.

The C++ code computes `numBytesInBuffer = rcvBuffer.size()` and
`numBytesToReadFromSocket = numBytesToRead - numBytesInBuffer`; only when
that deficit is positive does it call `read` with `transfer_exactly` on
the socket.  It then extracts `numBytesToRead` bytes from the front of
the buffer and `consume`s them.  `none` models the error path (the
stream closes before the deficit is delivered). -/
def readBytes (st : RecvState) (numBytesToRead : Nat) :
    Option (List Char × RecvState) :=
  let numBytesInBuffer := st.buffer.length
  if numBytesInBuffer < numBytesToRead then
    if st.stream.length < numBytesToRead - numBytesInBuffer then
      none
    else
      let pulled := numBytesToRead - numBytesInBuffer
      let buf := st.buffer ++ st.stream.take pulled
      some (buf.take numBytesToRead,
            ⟨buf.drop numBytesToRead, st.stream.drop pulled⟩)
  else
    some (st.buffer.take numBytesToRead,
          ⟨st.buffer.drop numBytesToRead, st.stream⟩)

/-- `sendBytes(socket, message)` from `SocketUtils`: a successful
`boost::asio::write` with `transfer_all` appends the complete message to
the bytes on the wire (it never reports success on a partial write). -/
def sendBytes (wire : List Char) (message : List Char) : List Char :=
  wire ++ message

/-! Helper lemmas about `firstDelimIdx`. -/

theorem firstDelimIdx_eq_none_of_not_mem {delim : Char} :
    ∀ {l : List Char}, delim ∉ l → firstDelimIdx delim l = none := by
  intro l h
  induction l with
  | nil => rfl
  | cons c rest ih =>
      simp only [List.mem_cons, not_or] at h
      have hc : ¬ c = delim := fun hc => h.1 hc.symm
      simp [firstDelimIdx, hc, ih h.2]

theorem firstDelimIdx_append_delim {delim : Char} :
    ∀ (B rest : List Char), delim ∉ B →
      firstDelimIdx delim (B ++ delim :: rest) = some B.length := by
  intro B rest h
  induction B with
  | nil => simp [firstDelimIdx]
  | cons c tail ih =>
      simp only [List.mem_cons, not_or] at h
      have hc : ¬ c = delim := fun hc => h.1 hc.symm
      simp [firstDelimIdx, hc, ih h.2]

theorem firstDelimIdx_lt_length {delim : Char} :
    ∀ {l : List Char} {q : Nat}, firstDelimIdx delim l = some q →
      q < l.length := by
  intro l
  induction l with
  | nil => intro q h; simp [firstDelimIdx] at h
  | cons c rest ih =>
      intro q h
      simp only [firstDelimIdx] at h
      by_cases hc : c = delim
      · rw [if_pos hc] at h
        cases h
        simp
      · rw [if_neg hc] at h
        cases hq : firstDelimIdx delim rest with
        | none => rw [hq] at h; simp at h
        | some q' =>
            rw [hq] at h
            simp only [Option.map_some'] at h
            cases h
            have := ih hq
            simp
            omega

theorem take_min_length (l : List Char) (k : Nat) :
    l.take (min k l.length) = l.take k := by
  rcases Nat.le_total k l.length with h | h
  · rw [min_eq_left h]
  · rw [min_eq_right h, List.take_length, List.take_of_length_le h]

theorem drop_min_length (l : List Char) (k : Nat) :
    l.drop (min k l.length) = l.drop k := by
  rcases Nat.le_total k l.length with h | h
  · rw [min_eq_left h]
  · rw [min_eq_right h, List.drop_length, List.drop_eq_nil_of_le h]

/-- Evaluation of `readBytes` when the buffer and the remaining stream
together hold at least `n` bytes: the call succeeds, returns the first
`n` bytes of `buffer ++ stream`, pulls only the deficit
`n - buffer.length` off the stream, and loses or duplicates nothing. -/
theorem readBytes_eq (st : RecvState) (n : Nat)
    (h : n ≤ st.buffer.length + st.stream.length) :
    ∃ st' : RecvState,
      readBytes st n = some ((st.buffer ++ st.stream).take n, st') ∧
      st'.stream = st.stream.drop (n - st.buffer.length) ∧
      st'.buffer ++ st'.stream = (st.buffer ++ st.stream).drop n := by
  by_cases hb : st.buffer.length < n
  · -- deficit positive: a socket read of exactly `n - buffer.length` bytes
    have hs : ¬ st.stream.length < n - st.buffer.length := by omega
    have hn : n = st.buffer.length + (n - st.buffer.length) := by omega
    have h1 : (st.buffer ++ st.stream).take n
        = st.buffer ++ st.stream.take (n - st.buffer.length) := by
      conv_lhs => rw [hn]
      rw [List.take_append]
    have h2 : (st.buffer ++ st.stream.take (n - st.buffer.length)).length
        = n := by
      simp
      omega
    have h3 : (st.buffer ++ st.stream.take (n - st.buffer.length)).take n
        = st.buffer ++ st.stream.take (n - st.buffer.length) :=
      List.take_of_length_le (le_of_eq h2)
    have h4 : (st.buffer ++ st.stream.take (n - st.buffer.length)).drop n
        = [] := List.drop_eq_nil_of_le (le_of_eq h2)
    have h5 : (st.buffer ++ st.stream).drop n
        = st.stream.drop (n - st.buffer.length) := by
      conv_lhs => rw [hn]
      rw [List.drop_append]
    refine ⟨⟨[], st.stream.drop (n - st.buffer.length)⟩, ?_, rfl, ?_⟩
    · simp only [readBytes, if_pos hb, if_neg hs]
      rw [h3, h4, h1]
    · rw [List.nil_append, h5]
  · -- the buffer already holds everything: no socket read at all
    have hb' : n ≤ st.buffer.length := by omega
    have h1 : (st.buffer ++ st.stream).take n = st.buffer.take n :=
      List.take_append_of_le_length hb'
    have h0 : n - st.buffer.length = 0 := by omega
    refine ⟨⟨st.buffer.drop n, st.stream⟩, ?_, ?_, ?_⟩
    · simp only [readBytes, if_neg hb]
      rw [h1]
    · rw [h0, List.drop_zero]
    · rw [List.drop_append_of_le_length hb']

/-- Evaluation of `readUntilDelimiter` when the buffer already contains
the delimiter (at first index `p`): `read_until` reads nothing from the
socket, the result is the buffer bytes before the delimiter, and exactly
the bytes up to and including the delimiter are consumed. -/
theorem readUntilDelimiter_buffer_hit (st : RecvState) {delim : Char}
    {p : Nat} (hp : firstDelimIdx delim st.buffer = some p) (k : Nat) :
    readUntilDelimiter st delim k =
      some (st.buffer.take p, ⟨st.buffer.drop (p + 1), st.stream⟩) := by
  unfold readUntilDelimiter
  rw [hp]

/-- Evaluation of `readUntilDelimiter` on an empty buffer against a
stream carrying `B ++ delim :: rest` with `delim ∉ B`: the call returns
exactly `B`, and the trailing `rest` survives split between the buffer
(the `k` over-read bytes) and the stream. -/
theorem readUntilDelimiter_fresh (B rest : List Char) {delim : Char}
    (k : Nat) (hB : delim ∉ B) :
    readUntilDelimiter ⟨[], B ++ delim :: rest⟩ delim k =
      some (B, ⟨rest.take k, rest.drop k⟩) := by
  have hbuf : firstDelimIdx delim ([] : List Char) = none := rfl
  have hstr : firstDelimIdx delim (B ++ delim :: rest) = some B.length :=
    firstDelimIdx_append_delim B rest hB
  have hone : (1 : Nat) + min k rest.length = min k rest.length + 1 :=
    Nat.add_comm 1 (min k rest.length)
  have hpulled : min (B.length + 1 + k) (B ++ delim :: rest).length
      = B.length + 1 + min k rest.length := by
    simp [Nat.add_assoc]
    omega
  have htake : (B ++ delim :: rest).take (B.length + 1 + min k rest.length)
      = B ++ delim :: rest.take (min k rest.length) := by
    rw [Nat.add_assoc, List.take_append, hone, List.take_succ_cons]
  have hdrop : (B ++ delim :: rest).drop (B.length + 1 + min k rest.length)
      = rest.drop (min k rest.length) := by
    rw [Nat.add_assoc, List.drop_append, hone, List.drop_succ_cons]
  have e1 : B.length + 1 - 1 = B.length := by omega
  have e2 : (B ++ delim :: rest.take (min k rest.length)).take B.length
      = B := by
    rw [List.take_append_of_le_length (Nat.le_refl _), List.take_length]
  have e3 : (B ++ delim :: rest.take (min k rest.length)).drop (B.length + 1)
      = rest.take (min k rest.length) := by
    rw [List.drop_append, List.drop_succ_cons, List.drop_zero]
  unfold readUntilDelimiter
  rw [hbuf, hstr]
  simp only [List.nil_append, List.length_nil, Nat.zero_add]
  rw [hpulled, htake, hdrop, e1, e2, e3, take_min_length, drop_min_length]

/-- Splitting a `take` across an append: the first `min (length l₁) n`
bytes come from `l₁`, the remaining `n - length l₁` from `l₂`. -/
theorem take_append_min (l₁ l₂ : List Char) (n : Nat) :
    (l₁ ++ l₂).take n
      = l₁.take (min l₁.length n) ++ l₂.take (n - l₁.length) := by
  rcases Nat.le_total n l₁.length with h | h
  · rw [min_eq_right h, List.take_append_of_le_length h]
    have h0 : n - l₁.length = 0 := by omega
    rw [h0, List.take_zero, List.append_nil]
  · rw [min_eq_left h, List.take_length]
    have hn : n = l₁.length + (n - l₁.length) := by omega
    conv_lhs => rw [hn]
    rw [List.take_append]

/-- `readBytes` when the buffer already holds at least `n` bytes:
no socket read happens at all. -/
theorem readBytes_from_buffer (buf s : List Char) (n : Nat)
    (h : n ≤ buf.length) :
    readBytes ⟨buf, s⟩ n = some (buf.take n, ⟨buf.drop n, s⟩) := by
  simp only [readBytes, if_neg (Nat.not_lt.2 h)]

/-- Claim C1: for every call `readBytes(stream, buffer, n)` where the
buffer already holds `b` left-over bytes, the function returns exactly
`n` bytes, taking the first `min b n` of them from the buffer and
reading only the deficit `n - b` from the stream (nothing when
`b >= n`); and after `readBytes n1` then `readBytes n2` over a delivery
of `n1+n2+k` bytes in the buffer, the trailing `k` bytes are neither
lost nor duplicated, and a subsequent `readUntilDelimiter` sees those
`k` bytes first. -/
theorem readBytes_drains_buffer_first :
    (∀ (st : RecvState) (n : Nat),
      n ≤ st.buffer.length + st.stream.length →
      readBytes st n = some ((st.buffer ++ st.stream).take n,
        ⟨(st.buffer ++ st.stream.take (n - st.buffer.length)).drop n,
         st.stream.drop (n - st.buffer.length)⟩) ∧
      ((st.buffer ++ st.stream).take n).length = n ∧
      (st.buffer ++ st.stream).take n
        = st.buffer.take (min st.buffer.length n)
          ++ st.stream.take (n - st.buffer.length) ∧
      (n ≤ st.buffer.length →
        st.stream.drop (n - st.buffer.length) = st.stream)) ∧
    (∀ (D rest : List Char) (n1 n2 kk : Nat),
      D.length = n1 + n2 + kk →
      readBytes ⟨D, rest⟩ n1 = some (D.take n1, ⟨D.drop n1, rest⟩) ∧
      readBytes ⟨D.drop n1, rest⟩ n2
        = some ((D.drop n1).take n2, ⟨D.drop (n1 + n2), rest⟩) ∧
      D.take n1 ++ ((D.drop n1).take n2 ++ D.drop (n1 + n2)) = D ∧
      (D.drop (n1 + n2)).length = kk ∧
      (∀ p, firstDelimIdx kDelimiter (D.drop (n1 + n2)) = some p →
        ∀ kOv, readUntilDelimiter ⟨D.drop (n1 + n2), rest⟩ kDelimiter kOv
          = some ((D.drop (n1 + n2)).take p,
                  ⟨(D.drop (n1 + n2)).drop (p + 1), rest⟩))) := by
  constructor
  · intro st n h
    refine ⟨?_, ?_, take_append_min st.buffer st.stream n, ?_⟩
    · by_cases hb : st.buffer.length < n
      · have hs : ¬ st.stream.length < n - st.buffer.length := by omega
        have hn : n = st.buffer.length + (n - st.buffer.length) := by omega
        have h1 : (st.buffer ++ st.stream).take n
            = st.buffer ++ st.stream.take (n - st.buffer.length) := by
          conv_lhs => rw [hn]
          rw [List.take_append]
        have h2 : (st.buffer ++ st.stream.take (n - st.buffer.length)).length
            = n := by
          simp
          omega
        have h3 : (st.buffer ++ st.stream.take (n - st.buffer.length)).take n
            = st.buffer ++ st.stream.take (n - st.buffer.length) :=
          List.take_of_length_le (le_of_eq h2)
        simp only [readBytes, if_pos hb, if_neg hs]
        rw [h3, h1]
      · have hb' : n ≤ st.buffer.length := by omega
        have h0 : n - st.buffer.length = 0 := by omega
        have h1 : (st.buffer ++ st.stream).take n = st.buffer.take n :=
          List.take_append_of_le_length hb'
        simp only [readBytes, if_neg hb, h0, List.take_zero,
          List.append_nil, List.drop_zero]
        rw [h1]
    · rw [List.length_take]
      simp
      omega
    · intro hge
      have h0 : n - st.buffer.length = 0 := by omega
      rw [h0, List.drop_zero]
  · intro D rest n1 n2 kk hD
    have h1 : n1 ≤ D.length := by omega
    have h2 : n2 ≤ (D.drop n1).length := by
      rw [List.length_drop]
      omega
    have hdd : (D.drop n1).drop n2 = D.drop (n1 + n2) := by
      rw [List.drop_drop]
    have e2 := readBytes_from_buffer (D.drop n1) rest n2 h2
    rw [hdd] at e2
    refine ⟨readBytes_from_buffer D rest n1 h1, e2, ?_, ?_, ?_⟩
    · rw [← hdd, List.take_append_drop, List.take_append_drop]
    · rw [List.length_drop]
      omega
    · intro p hp kOv
      exact readUntilDelimiter_buffer_hit ⟨D.drop (n1 + n2), rest⟩ hp kOv

/-- Witness for C1: `readBytes ⟨"a", "bc"⟩ 2` splices buffer and stream;
over a five-byte chunk `"abcz#"` delivered at once, `readBytes 2` then
`readBytes 1` leave exactly the trailing `"z#"`, which the next
`readUntilDelimiter` consumes first. -/
theorem readBytes_drains_buffer_first_witness :
    readBytes ⟨['a'], ['b', 'c']⟩ 2 = some (['a', 'b'], ⟨[], ['c']⟩) ∧
    readBytes ⟨['a', 'b', 'c', 'z', '#'], []⟩ 2
      = some (['a', 'b'], ⟨['c', 'z', '#'], []⟩) ∧
    readBytes ⟨['c', 'z', '#'], []⟩ 1
      = some (['c'], ⟨['z', '#'], []⟩) ∧
    readUntilDelimiter ⟨['z', '#'], []⟩ kDelimiter 0
      = some (['z'], ⟨[], []⟩) := by
  have ha := (readBytes_drains_buffer_first.1 ⟨['a'], ['b', 'c']⟩ 2
    (by decide)).1
  have hb := readBytes_drains_buffer_first.2 ['a', 'b', 'c', 'z', '#'] []
    2 1 2 (by decide)
  exact ⟨ha, hb.1, hb.2.1, hb.2.2.2.2 1 (by decide) 0⟩

/-- Claim C2: for every byte sequence `B` free of the delimiter, sending
`B` plus the delimiter with `sendBytes` and decoding with
`readUntilDelimiter` returns exactly `B`; the decoder consumes exactly
the bytes up to and including the delimiter and keeps any over-read
bytes in the buffer for the next logical read. -/
theorem sendBytes_readUntilDelimiter_roundtrip :
    ∀ (B rest : List Char) (k : Nat),
      kDelimiter ∉ B →
      readUntilDelimiter ⟨[], sendBytes [] (B ++ [kDelimiter]) ++ rest⟩
          kDelimiter k
        = some (B, ⟨rest.take k, rest.drop k⟩) ∧
      rest.take k ++ rest.drop k = rest ∧
      (∀ (buf stream : List Char) (p : Nat),
        firstDelimIdx kDelimiter buf = some p →
        readUntilDelimiter ⟨buf, stream⟩ kDelimiter k
          = some (buf.take p, ⟨buf.drop (p + 1), stream⟩)) := by
  intro B rest k hB
  have hwire : sendBytes [] (B ++ [kDelimiter]) ++ rest
      = B ++ kDelimiter :: rest := by
    simp [sendBytes]
  refine ⟨?_, List.take_append_drop k rest, ?_⟩
  · rw [hwire]
    exact readUntilDelimiter_fresh B rest k hB
  · intro buf stream p hp
    exact readUntilDelimiter_buffer_hit ⟨buf, stream⟩ hp k

/-- Witness for C2: round trip of `"hi"` with two trailing bytes and an
over-read of one byte, and a delimiter-terminated consume out of a
buffer that already holds the delimiter. -/
theorem sendBytes_readUntilDelimiter_roundtrip_witness :
    readUntilDelimiter
        ⟨[], sendBytes [] (['h', 'i'] ++ [kDelimiter]) ++ ['x', 'y']⟩
        kDelimiter 1
      = some (['h', 'i'], ⟨['x'], ['y']⟩) ∧
    readUntilDelimiter ⟨['a', '#', 'b'], ['c']⟩ kDelimiter 1
      = some (['a'], ⟨['b'], ['c']⟩) := by
  have h := sendBytes_readUntilDelimiter_roundtrip ['h', 'i'] ['x', 'y'] 1
    (by decide)
  exact ⟨h.1, h.2.2 ['a', '#', 'b'] ['c'] 1 (by decide)⟩

/-! The client program (`runClient` in `main.cpp`). -/

/-- Decimal digit test, as `std::stoi` accepts. -/
def isCppDigit (c : Char) : Bool := '0' ≤ c && c ≤ '9'

/-- Whitespace skipped by `std::stoi` (`isspace` in the C locale). -/
def isCppSpace (c : Char) : Bool :=
  c = ' ' || c = '\t' || c = '\n' || c = Char.ofNat 11 ||
  c = Char.ofNat 12 || c = '\r'

/-- Value of a run of decimal digits, most significant first. -/
def digitsVal (ds : List Char) : Nat :=
  ds.foldl (fun acc c => 10 * acc + (c.toNat - '0'.toNat)) 0

/-- `std::stoi`: skips leading whitespace, accepts an optional sign,
requires at least one decimal digit, parses the maximal digit run and
ignores anything after it.  `none` models the `std::invalid_argument`
exception (the only one the client catches).  Out-of-range values are
not modelled; the headers exchanged here are small. -/
def cppStoi (s : List Char) : Option Int :=
  let s1 := s.dropWhile isCppSpace
  match s1 with
  | '-' :: r =>
      let ds := r.takeWhile isCppDigit
      if ds.isEmpty then none else some (-(digitsVal ds : Int))
  | '+' :: r =>
      let ds := r.takeWhile isCppDigit
      if ds.isEmpty then none else some ((digitsVal ds : Int))
  | _ =>
      let ds := s1.takeWhile isCppDigit
      if ds.isEmpty then none else some ((digitsVal ds : Int))

/-- Observable result of one client run, after a successful connect. -/
inductive ClientOutcome where
  | fatalReadHeader
  | fatalInvalidHeader
  | fatalNegativeHeader
  | fatalZeroBytes
  | fatalReadPayload
  | savedFile (localFilename : List Char) (contents : List Char)
  | saveFailed (requestedFilename : List Char)
deriving DecidableEq

/-- The client program `runClient` from `main.cpp`, after a successful
connect: it sends the filename request, reads the delimiter-terminated
header, converts it with `std::stoi` (`LOG(FATAL)` on
`std::invalid_argument`), rejects a negative value, treats `0` as
"Server is returning 0 bytes" (fatal, and no output file is created),
otherwise receives exactly `numBytes` payload bytes and writes them to
`<filename>.<epoch-seconds>`.  `k` resolves the `read_until` over-read
nondeterminism, `epochSeconds` is the wall clock at receipt, `outputOk`
is whether the output file could be opened. -/
def runClient (filename : List Char) (serverStream : List Char) (k : Nat)
    (epochSeconds : Nat) (outputOk : Bool) : ClientOutcome :=
  match readUntilDelimiter ⟨[], serverStream⟩ kDelimiter k with
  | none => .fatalReadHeader
  | some (header, st1) =>
    match cppStoi header with
    | none => .fatalInvalidHeader
    | some numBytes =>
      if numBytes < 0 then
        .fatalNegativeHeader
      else if numBytes = 0 then
        .fatalZeroBytes
      else
        match readBytes st1 numBytes.toNat with
        | none => .fatalReadPayload
        | some (outputFileBuf, _) =>
          let localFilename :=
            filename ++ '.' :: (Nat.repr epochSeconds).data
          if outputOk then .savedFile localFilename outputFileBuf
          else .saveFailed filename

/-- Claim C6: a header parsing to `0` makes the client terminate with
the distinct "server returned 0 bytes" outcome and no output file;
only a strictly positive header value makes it read the payload and
write a file named `<requested-filename>.<unix-epoch-seconds>`. -/
theorem client_header_zero_vs_positive :
    ∀ (filename hdr rest : List Char) (k epoch : Nat) (outOk : Bool),
      kDelimiter ∉ hdr →
      (cppStoi hdr = some 0 →
        runClient filename (hdr ++ kDelimiter :: rest) k epoch outOk
          = ClientOutcome.fatalZeroBytes) ∧
      (∀ n : Int, cppStoi hdr = some n → 0 < n → n.toNat ≤ rest.length →
        runClient filename (hdr ++ kDelimiter :: rest) k epoch true
          = ClientOutcome.savedFile
              (filename ++ '.' :: (Nat.repr epoch).data)
              (rest.take n.toNat)) := by
  intro filename hdr rest k epoch outOk hhdr
  have hread := readUntilDelimiter_fresh hdr rest k hhdr
  constructor
  · intro h0
    simp [runClient, hread, h0]
  · intro n hn hpos hlen
    have hlen2 : n.toNat ≤ (rest.take k).length + (rest.drop k).length := by
      rw [List.length_take, List.length_drop]
      omega
    obtain ⟨st', hrb, -, -⟩ :=
      readBytes_eq ⟨rest.take k, rest.drop k⟩ n.toNat hlen2
    rw [List.take_append_drop] at hrb
    have hneg : ¬ n < 0 := by omega
    have hzero : ¬ n = 0 := by omega
    simp [runClient, hread, hn, hneg, hzero, hrb]

/-- Witness for C6: header `"0"` yields the zero-bytes outcome; header
`"2"` makes the client save two payload bytes to `"f.7"`. -/
theorem client_header_zero_vs_positive_witness :
    runClient ['f'] (['0'] ++ kDelimiter :: ['q']) 0 5 true
      = ClientOutcome.fatalZeroBytes ∧
    runClient ['f'] (['2'] ++ kDelimiter :: ['h', 'i']) 1 7 true
      = ClientOutcome.savedFile (['f'] ++ '.' :: (Nat.repr 7).data)
          (['h', 'i'].take (Int.toNat 2)) := by
  have h1 := (client_header_zero_vs_positive ['f'] ['0'] ['q'] 0 5 true
    (by decide)).1 (by decide)
  have h2 := (client_header_zero_vs_positive ['f'] ['2'] ['h', 'i'] 1 7 true
    (by decide)).2 2 (by decide) (by decide) (by decide)
  exact ⟨h1, h2⟩

/-! The server (`Server.h` / `Server.cpp`). -/

/-- State of one connection's TCP socket.  `shutdown(shutdown_both)`
does not close the descriptor, so `is_open()` stays true after it;
only `close()` makes `is_open()` false. -/
inductive SockState where
  | opened
  | shutdownBoth
  | closed
deriving DecidableEq

/-- `socket.is_open()`. -/
def SockState.isOpen : SockState → Bool
  | .closed => false
  | _ => true

/-- `struct ClientRequestInfo`: requested filename, bytes transferred,
total bytes to send.  Both counters are value-initialized to `0` and
the filename to the empty string. -/
structure ClientRequestInfo where
  filename : List Char := []
  bytesTransferred : Nat := 0
  bytesToTransfer : Nat := 0
deriving DecidableEq

/-- `struct ClientConnection`: the id, the request-progress record
(guarded by `clientRequestInfoMutex`), and the socket together with its
`socketStateMutex`-guarded open/shutdown/closed state. -/
structure ClientConnection where
  clientId : Int
  clientRequestInfo : ClientRequestInfo := {}
  sockState : SockState := .opened
deriving DecidableEq

/-- Shared-ownership handle to a `ClientConnection`
(`std::shared_ptr<ClientConnection>` identity). -/
abbrev ConnRef := Nat

/-- One spawned session-handler thread (`std::thread` in
`clientThreads_`) together with whether it has been joined. -/
structure SessionThread where
  connRef : ConnRef
  joined : Bool
deriving DecidableEq

/-- Lookup in an association list (the first entry with the key, as in
`std::unordered_map::find` over unique keys). -/
def assocLookup {κ ν : Type} [DecidableEq κ] : List (κ × ν) → κ → Option ν
  | [], _ => none
  | (k, v) :: rest, key =>
      if k = key then some v else assocLookup rest key

/-- Apply `f` to every value stored under `key`. -/
def assocUpdate {κ ν : Type} [DecidableEq κ] (f : ν → ν) :
    List (κ × ν) → κ → List (κ × ν)
  | [], _ => []
  | (k, v) :: rest, key =>
      if k = key then (k, f v) :: assocUpdate f rest key
      else (k, v) :: assocUpdate f rest key

/-- Remove every entry stored under `key`
(`std::unordered_map::erase`). -/
def assocErase {κ ν : Type} [DecidableEq κ] : List (κ × ν) → κ → List (κ × ν)
  | [], _ => []
  | (k, v) :: rest, key =>
      if k = key then assocErase rest key
      else (k, v) :: assocErase rest key

/-- Two's-complement wrap-around of a 32-bit signed `int`: reduces a
value into `[-2^31, 2^31)` (`-2147483648 ≤ x < 2147483648`).
`std::atomic<int>::fetch_add` performs its addition with exactly this
wrapping semantics on overflow. -/
def wrapInt32 (x : Int) : Int :=
  (x + 2147483648) % 4294967296 - 2147483648

/-- The `Server` object.  `clientConnections_` maps client id to the
shared handle of its `ClientConnection`; `conns` is the heap of
`ClientConnection` objects those handles point to (shared between the
registry and the handler threads); `clientThreads_` is the append-only
list of spawned handler threads; `acceptorOpen` is
`acceptor_.is_open()`.  `nextClientID` holds the value of the 32-bit
`std::atomic<int> nextClientID_`: every increment goes through
`wrapInt32`, so starting from the constructor's `1` it always lies in
`[-2^31, 2^31)`. -/
structure ServerState where
  nextClientID : Int
  clientThreads : List SessionThread
  clientConnections : List (Int × ConnRef)
  conns : List (ConnRef × ClientConnection)
  acceptorOpen : Bool
deriving DecidableEq

/-- `Server::Server()`: `nextClientID_(1)`, empty registry, no threads,
acceptor not yet opened. -/
def serverInit : ServerState :=
  { nextClientID := 1
    clientThreads := []
    clientConnections := []
    conns := []
    acceptorOpen := false }

/-- `Server::getNextClientID()`: `nextClientID_.fetch_add(1)` —
an atomic fetch-and-add returning the previous value.  Atomicity makes
every concurrent history a serialization of these single steps.  The
counter is a 32-bit `int`, and atomic fetch-and-add wraps with
two's-complement semantics at `INT_MAX`, hence the `wrapInt32` on the
stored value. -/
def getNextClientID (s : ServerState) : Int × ServerState :=
  (s.nextClientID,
   { s with nextClientID := wrapInt32 (s.nextClientID + 1) })

/-- The ids produced by `n` successive `getNextClientID` calls. -/
def idTrace : ServerState → Nat → List Int
  | _, 0 => []
  | s, n + 1 =>
      let (clientId, s') := getNextClientID s
      clientId :: idTrace s' n

/-- `Server::getConnectedClients()`: the ids of all registered
connections, collected under `clientConnectionsMutex_`. -/
def getConnectedClients (s : ServerState) : List Int :=
  s.clientConnections.map (fun kv => kv.1)

/-- `Server::getConnectedClientsWithInfo()`: for each registered
connection, a copy of its `ClientRequestInfo` taken under that
connection's own `clientRequestInfoMutex`. -/
def getConnectedClientsWithInfo (s : ServerState) :
    List (Int × ClientRequestInfo) :=
  s.clientConnections.filterMap (fun kv =>
    (assocLookup s.conns kv.2).map (fun conn =>
      (kv.1, conn.clientRequestInfo)))

/-- `Server::disconnectClient(clientId)`: look the id up under the
registry lock; if absent return `false`; otherwise, under the
connection's `socketStateMutex`, call `shutdown(shutdown_both)` only if
the socket is still open, and return `true` either way. -/
def disconnectClient (s : ServerState) (clientId : Int) :
    Bool × ServerState :=
  match assocLookup s.clientConnections clientId with
  | none => (false, s)
  | some ref =>
      (true,
       { s with
         conns := assocUpdate (fun conn =>
           if conn.sockState.isOpen then
             { conn with sockState := SockState.shutdownBoth }
           else conn) s.conns ref })

/-- The `BOOST_SCOPE_EXIT` block of `Server::handleClient`: runs on
every exit path; closes the socket under `socketStateMutex` and erases
the connection from the registry under `clientConnectionsMutex_`. -/
def handleClientCleanup (s : ServerState) (clientId : Int)
    (ref : ConnRef) : ServerState :=
  { s with
    conns := assocUpdate (fun conn =>
      { conn with sockState := SockState.closed }) s.conns ref
    clientConnections := assocErase s.clientConnections clientId }

/-- How one session ended: early return after a read error, early
return after a write error, or the normal end of `handleClient`.
The scope-exit cleanup runs in every case. -/
inductive SessionOutcome where
  | readError
  | writeError
  | completed
deriving DecidableEq

/-- Observable behaviour of one `Server::handleClient` session:
the bytes it wrote to the socket, the successive values taken by the
connection's `ClientRequestInfo` (each written under
`clientRequestInfoMutex`, hence each an observable snapshot), and how
the session ended. -/
structure SessionResult where
  wire : List Char
  infoTrace : List ClientRequestInfo
  outcome : SessionOutcome
deriving DecidableEq

/-- The per-byte send loop of `Server::handleClient`: each iteration
sends one byte with `sendBytes`; on a write error it returns at once;
otherwise it increments `bytesTransferred` under the progress lock and
continues.  `okWrites` is the number of remaining `sendBytes` calls the
socket will still accept before failing (the write-error schedule).
Returns the bytes that reached the wire, the successive
`ClientRequestInfo` values, and whether the loop completed. -/
def sendLoop : Nat → List Char → ClientRequestInfo →
    List Char × List ClientRequestInfo × Bool
  | _, [], _ => ([], [], true)
  | 0, _ :: _, _ => ([], [], false)
  | okWrites + 1, c :: restBytes, info =>
      let info' :=
        { info with bytesTransferred := info.bytesTransferred + 1 }
      let (w, tr, done) := sendLoop okWrites restBytes info'
      (c :: w, info' :: tr, done)

/-- `Server::handleClient` (the session body, from the first read to
the function end).  `request` is the result of the
`readUntilDelimiter` on the filename (`none` = read error, early
return); `fs` is the file system (`std::ifstream` open: `none` when the
file cannot be opened, in which case `inputFileBuf` stays empty); the
first `okWrites` `sendBytes` calls succeed and the next one fails.
After the read, the handler records the filename and the file length in
the `ClientRequestInfo` under the progress lock, sends the header
(decimal length plus delimiter) as one `sendBytes` call, then streams
the payload one byte per `sendBytes` call through `sendLoop`. -/
def handleClient (request : Option (List Char))
    (fs : List Char → Option (List Char)) (okWrites : Nat) :
    SessionResult :=
  let info0 : ClientRequestInfo := {}
  match request with
  | none => ⟨[], [info0], SessionOutcome.readError⟩
  | some filename =>
    let inputFileBuf := (fs filename).getD []
    let info1 : ClientRequestInfo :=
      { filename := filename
        bytesTransferred := 0
        bytesToTransfer := inputFileBuf.length }
    match okWrites with
    | 0 => ⟨[], [info0, info1], SessionOutcome.writeError⟩
    | okRest + 1 =>
      let header := (Nat.repr inputFileBuf.length).data ++ [kDelimiter]
      let (w, tr, done) := sendLoop okRest inputFileBuf info1
      ⟨header ++ w, info0 :: info1 :: tr,
       if done then SessionOutcome.completed else SessionOutcome.writeError⟩

/-- What the accept loop observes on one `async_accept` completion. -/
inductive AcceptEvent where
  | connected
  | stopped
  | failed
deriving DecidableEq

/-- `Server::stop()`: `acceptor_.close()`. -/
def stop (s : ServerState) : ServerState :=
  { s with acceptorOpen := false }

/-- One accepted connection inside `Server::run`'s loop: allocate the
next id with `getNextClientID`, build the shared `ClientConnection`,
register it in `clientConnections_` under the registry lock, and spawn
a handler thread recorded in `clientThreads_`. -/
def acceptOne (s : ServerState) : ServerState :=
  let (clientId, s1) := getNextClientID s
  let ref : ConnRef := s1.conns.length
  { s1 with
    conns := s1.conns ++ [(ref, { clientId := clientId })]
    clientConnections := s1.clientConnections ++ [(clientId, ref)]
    clientThreads := s1.clientThreads ++ [⟨ref, false⟩] }

/-- The `while (acceptor_.is_open())` accept loop of `Server::run`.
Each list element is the completion of one `async_accept`:
`connected` spawns a session; `stopped` is `Server::stop()` closing the
acceptor, which makes the pending accept complete with
`boost::asio::error::operation_aborted` — the loop recognises that (or
a closed acceptor) and breaks; `failed` is any other accept error,
which is logged and also breaks the loop. -/
def acceptLoop : ServerState → List AcceptEvent → ServerState
  | s, [] => s
  | s, e :: rest =>
      if s.acceptorOpen then
        match e with
        | AcceptEvent.connected => acceptLoop (acceptOne s) rest
        | AcceptEvent.stopped => stop s
        | AcceptEvent.failed => s
      else s

/-- The drain phase after the accept loop: `getConnectedClients()` then
`disconnectClient` on each returned id. -/
def disconnectAll : ServerState → List Int → ServerState
  | s, [] => s
  | s, clientId :: rest =>
      disconnectAll (disconnectClient s clientId).2 rest

/-- `Server::run` after the loop: disconnect every currently registered
client. -/
def drainClients (s : ServerState) : ServerState :=
  disconnectAll s (getConnectedClients s)

/-- The final phase of `Server::run`: `join()` every thread in
`clientThreads_`. -/
def joinAllThreads (s : ServerState) : ServerState :=
  { s with
    clientThreads := s.clientThreads.map (fun t => { t with joined := true }) }

/-- `Server::run(endpoint)`: open/bind/listen, run the accept loop,
then disconnect the remaining clients and join every client thread;
only then does `run` return. -/
def serverRun (s : ServerState) (events : List AcceptEvent) : ServerState :=
  joinAllThreads (drainClients (acceptLoop { s with acceptorOpen := true } events))

/-! Association-list lemmas. -/

theorem assocLookup_assocUpdate_self {κ ν : Type} [DecidableEq κ]
    (f : ν → ν) (l : List (κ × ν)) (key : κ) :
    assocLookup (assocUpdate f l key) key = (assocLookup l key).map f := by
  induction l with
  | nil => rfl
  | cons kv rest ih =>
      obtain ⟨k, v⟩ := kv
      by_cases hk : k = key
      · simp [assocUpdate, assocLookup, hk]
      · simp [assocUpdate, assocLookup, hk, ih]

theorem assocLookup_assocUpdate_ne {κ ν : Type} [DecidableEq κ]
    (f : ν → ν) (l : List (κ × ν)) (key k' : κ) (h : k' ≠ key) :
    assocLookup (assocUpdate f l key) k' = assocLookup l k' := by
  induction l with
  | nil => rfl
  | cons kv rest ih =>
      obtain ⟨k, v⟩ := kv
      have hkey : ¬ key = k' := fun he => h he.symm
      by_cases hk : k = key
      · simp [assocUpdate, assocLookup, hk, hkey, ih]
      · by_cases hk2 : k = k'
        · simp [assocUpdate, assocLookup, hk, hk2, h]
        · simp [assocUpdate, assocLookup, hk, hk2, ih]

theorem assocLookup_assocErase_self {κ ν : Type} [DecidableEq κ]
    (l : List (κ × ν)) (key : κ) :
    assocLookup (assocErase l key) key = none := by
  induction l with
  | nil => rfl
  | cons kv rest ih =>
      obtain ⟨k, v⟩ := kv
      by_cases hk : k = key
      · simp [assocErase, hk, ih]
      · simp [assocErase, assocLookup, hk, ih]

theorem assocLookup_mem_keys {κ ν : Type} [DecidableEq κ]
    {l : List (κ × ν)} {key : κ} {v : ν}
    (h : assocLookup l key = some v) : key ∈ l.map (fun kv => kv.1) := by
  induction l with
  | nil => simp [assocLookup] at h
  | cons kv rest ih =>
      obtain ⟨k, v'⟩ := kv
      by_cases hk : k = key
      · simp [hk]
      · simp only [assocLookup, if_neg hk] at h
        simp [ih h]

/-- The update `disconnectClient` applies to the found connection never
yields an `opened` socket (it shuts an open socket down and leaves a
closed one alone). -/
theorem shutdown_update_not_opened (conn : ClientConnection) :
    ((if conn.sockState.isOpen then
        { conn with sockState := SockState.shutdownBoth }
      else conn)).sockState ≠ SockState.opened := by
  cases h : conn.sockState <;> simp [SockState.isOpen, h]

/-- `disconnectClient` touches only the connection heap: the registry
map, the thread list, the id counter and the acceptor are unchanged. -/
theorem disconnectClient_frame (s : ServerState) (clientId : Int) :
    (disconnectClient s clientId).2.clientConnections
      = s.clientConnections ∧
    (disconnectClient s clientId).2.clientThreads = s.clientThreads ∧
    (disconnectClient s clientId).2.nextClientID = s.nextClientID ∧
    (disconnectClient s clientId).2.acceptorOpen = s.acceptorOpen := by
  rcases hl : assocLookup s.clientConnections clientId with _ | ref <;>
    simp [disconnectClient, hl]

/-- Claim C3: `disconnectClient(id)` returns `false` exactly when no
connection with that id is registered; whenever one is found it returns
`true` regardless of the socket's state; a still-open socket receives a
both-directions shutdown (not a close), and an already-closed socket is
left untouched. -/
theorem disconnectClient_spec :
    ∀ (s : ServerState) (clientId : Int),
      (assocLookup s.clientConnections clientId = none →
        disconnectClient s clientId = (false, s)) ∧
      (∀ ref, assocLookup s.clientConnections clientId = some ref →
        (disconnectClient s clientId).1 = true ∧
        (∀ conn, assocLookup s.conns ref = some conn →
          assocLookup (disconnectClient s clientId).2.conns ref
            = some (if conn.sockState.isOpen then
                      { conn with sockState := SockState.shutdownBoth }
                    else conn) ∧
          (conn.sockState = SockState.closed →
            assocLookup (disconnectClient s clientId).2.conns ref
              = some conn))) := by
  intro s clientId
  constructor
  · intro h
    simp [disconnectClient, h]
  · intro ref href
    refine ⟨by simp [disconnectClient, href], ?_⟩
    intro conn hconn
    have hupd :
        assocLookup (disconnectClient s clientId).2.conns ref
          = some (if conn.sockState.isOpen then
                    { conn with sockState := SockState.shutdownBoth }
                  else conn) := by
      simp only [disconnectClient, href]
      rw [assocLookup_assocUpdate_self, hconn]
      rfl
    refine ⟨hupd, ?_⟩
    intro hclosed
    rw [hupd, hclosed]
    simp [SockState.isOpen]

/-- Witness for C3: an unknown id fails; a registered open socket is
shut down (both directions); a registered closed socket is untouched,
yet the call still returns `true`. -/
theorem disconnectClient_spec_witness :
    disconnectClient serverInit 7 = (false, serverInit) ∧
    (disconnectClient
        ⟨2, [], [(1, 0)], [(0, ⟨1, {}, SockState.opened⟩)], true⟩ 1).1
      = true ∧
    assocLookup (disconnectClient
        ⟨2, [], [(1, 0)], [(0, ⟨1, {}, SockState.opened⟩)], true⟩ 1).2.conns 0
      = some ⟨1, {}, SockState.shutdownBoth⟩ ∧
    assocLookup (disconnectClient
        ⟨2, [], [(1, 0)], [(0, ⟨1, {}, SockState.closed⟩)], true⟩ 1).2.conns 0
      = some ⟨1, {}, SockState.closed⟩ := by
  have h0 := (disconnectClient_spec serverInit 7).1 rfl
  have h1 := (disconnectClient_spec
    ⟨2, [], [(1, 0)], [(0, ⟨1, {}, SockState.opened⟩)], true⟩ 1).2 0 rfl
  have h2 := (disconnectClient_spec
    ⟨2, [], [(1, 0)], [(0, ⟨1, {}, SockState.closed⟩)], true⟩ 1).2 0 rfl
  exact ⟨h0, h1.1, (h1.2 ⟨1, {}, SockState.opened⟩ rfl).1,
    (h2.2 ⟨1, {}, SockState.closed⟩ rfl).2 rfl⟩

/-- Claim C10: `disconnectClient` never modifies the registry map — a
found entry stays in the map (so `find` and `list` still report it) and
`disconnectClient` performs no close; the handler's scope-guaranteed
cleanup is what erases the entry and performs the only close of the
socket. -/
theorem disconnectClient_registry_frame :
    ∀ (s : ServerState) (clientId : Int) (ref : ConnRef),
      assocLookup s.clientConnections clientId = some ref →
      ((disconnectClient s clientId).1 = true ∧
       (disconnectClient s clientId).2.clientConnections
         = s.clientConnections ∧
       getConnectedClients (disconnectClient s clientId).2
         = getConnectedClients s ∧
       assocLookup (disconnectClient s clientId).2.clientConnections
           clientId = some ref ∧
       (∀ (r : ConnRef) (conn : ClientConnection),
         assocLookup s.conns r = some conn →
         conn.sockState ≠ SockState.closed →
         ∃ conn', assocLookup (disconnectClient s clientId).2.conns r
             = some conn' ∧ conn'.sockState ≠ SockState.closed)) ∧
      (assocLookup (handleClientCleanup s clientId ref).clientConnections
          clientId = none ∧
       (∀ conn, assocLookup s.conns ref = some conn →
         assocLookup (handleClientCleanup s clientId ref).conns ref
           = some { conn with sockState := SockState.closed })) := by
  intro s clientId ref href
  have hframe := disconnectClient_frame s clientId
  refine ⟨⟨by simp [disconnectClient, href], hframe.1, ?_, ?_, ?_⟩, ?_, ?_⟩
  · unfold getConnectedClients
    rw [hframe.1]
  · rw [hframe.1, href]
  · intro r conn hconn hopen
    simp only [disconnectClient, href]
    by_cases hr : r = ref
    · subst hr
      rw [assocLookup_assocUpdate_self, hconn]
      refine ⟨_, rfl, ?_⟩
      cases h : conn.sockState
      · simp [SockState.isOpen, h]
      · simp [SockState.isOpen, h]
      · exact absurd h hopen
    · rw [assocLookup_assocUpdate_ne _ _ _ _ hr, hconn]
      exact ⟨conn, rfl, hopen⟩
  · simp only [handleClientCleanup]
    exact assocLookup_assocErase_self s.clientConnections clientId
  · intro conn hconn
    simp only [handleClientCleanup]
    rw [assocLookup_assocUpdate_self, hconn]
    rfl

/-- Witness for C10: with client 1 registered at handle 0 and its
socket open, `disconnectClient` keeps the registry entry and only shuts
the socket down; `handleClientCleanup` then erases the entry and
closes. -/
theorem disconnectClient_registry_frame_witness :
    (disconnectClient
        ⟨2, [], [(1, 0)], [(0, ⟨1, {}, SockState.opened⟩)], true⟩ 1).2.clientConnections
      = [(1, 0)] ∧
    assocLookup (handleClientCleanup
        ⟨2, [], [(1, 0)], [(0, ⟨1, {}, SockState.opened⟩)], true⟩ 1 0).clientConnections 1
      = none ∧
    assocLookup (handleClientCleanup
        ⟨2, [], [(1, 0)], [(0, ⟨1, {}, SockState.opened⟩)], true⟩ 1 0).conns 0
      = some ⟨1, {}, SockState.closed⟩ := by
  have h := disconnectClient_registry_frame
    ⟨2, [], [(1, 0)], [(0, ⟨1, {}, SockState.opened⟩)], true⟩ 1 0 rfl
  exact ⟨h.1.2.1, h.2.1, h.2.2 ⟨1, {}, SockState.opened⟩ rfl⟩

/-! Client-id allocation (C7).  The counter is a wrapping 32-bit
`int`, so monotonicity holds only while the counter has not wrapped
past `INT_MAX`. -/

theorem wrapInt32_eq_self {x : Int} (hlo : -2147483648 ≤ x)
    (hhi : x < 2147483648) : wrapInt32 x = x := by
  unfold wrapInt32
  omega

theorem idTrace_le_of_no_wrap : ∀ (n : Nat) (s : ServerState) (m : Int),
    -2147483648 ≤ s.nextClientID →
    s.nextClientID + (n : Int) < 2147483648 →
    m ∈ idTrace s n → s.nextClientID ≤ m := by
  intro n
  induction n with
  | zero =>
      intro s m _ _ h
      simp [idTrace] at h
  | succ n ih =>
      intro s m hlo hhi h
      push_cast at hhi
      simp only [idTrace, getNextClientID, List.mem_cons] at h
      rcases h with h | h
      · omega
      · have hw : wrapInt32 (s.nextClientID + 1) = s.nextClientID + 1 :=
          wrapInt32_eq_self (by omega) (by omega)
        rw [hw] at h
        have hb1 : -2147483648 ≤
            ({ s with nextClientID := s.nextClientID + 1 }
              : ServerState).nextClientID := by
          show -2147483648 ≤ s.nextClientID + 1
          omega
        have hb2 : ({ s with nextClientID := s.nextClientID + 1 }
              : ServerState).nextClientID + (n : Int) < 2147483648 := by
          show s.nextClientID + 1 + (n : Int) < 2147483648
          omega
        have hle' : s.nextClientID + 1 ≤ m :=
          ih { s with nextClientID := s.nextClientID + 1 } m hb1 hb2 h
        omega

/-- The server state after `m` further `getNextClientID` calls. -/
def afterCalls : ServerState → Nat → ServerState
  | s, 0 => s
  | s, m + 1 => afterCalls (getNextClientID s).2 m

theorem idTrace_split : ∀ (m n : Nat) (s : ServerState),
    idTrace s (m + n) = idTrace s m ++ idTrace (afterCalls s m) n := by
  intro m
  induction m with
  | zero =>
      intro n s
      simp [idTrace, afterCalls]
  | succ m ih =>
      intro n s
      have hadd : m + 1 + n = (m + n) + 1 := by omega
      rw [hadd]
      simp only [idTrace, getNextClientID, List.cons_append]
      rw [ih]
      rfl

theorem afterCalls_counter : ∀ (m : Nat) (s : ServerState),
    -2147483648 ≤ s.nextClientID →
    s.nextClientID + (m : Int) < 2147483648 →
    (afterCalls s m).nextClientID = s.nextClientID + (m : Int) := by
  intro m
  induction m with
  | zero =>
      intro s _ _
      simp [afterCalls]
  | succ m ih =>
      intro s hlo hhi
      push_cast at hhi
      simp only [afterCalls, getNextClientID]
      have hw : wrapInt32 (s.nextClientID + 1) = s.nextClientID + 1 :=
        wrapInt32_eq_self (by omega) (by omega)
      rw [hw]
      have hb1 : -2147483648 ≤
          ({ s with nextClientID := s.nextClientID + 1 }
            : ServerState).nextClientID := by
        show -2147483648 ≤ s.nextClientID + 1
        omega
      have hb2 : ({ s with nextClientID := s.nextClientID + 1 }
            : ServerState).nextClientID + (m : Int) < 2147483648 := by
        show s.nextClientID + 1 + (m : Int) < 2147483648
        omega
      rw [ih { s with nextClientID := s.nextClientID + 1 } hb1 hb2]
      show s.nextClientID + 1 + (m : Int)
        = s.nextClientID + ((m + 1 : Nat) : Int)
      push_cast
      ring

/-- Counterexample to claim C7 as stated: `nextClientID_` is a 32-bit
`std::atomic<int>` and `fetch_add` wraps with two's-complement
semantics, so in the execution that accepts `2147483648` clients the
id handed out on accept number `2147483647` is `INT_MAX` and the next
one is `INT_MIN` — the id sequence of that run is not strictly
increasing. -/
theorem client_ids_wrap_counterexample :
    ¬ (idTrace serverInit (2147483646 + 2)).Pairwise (· < ·) := by
  intro hpair
  rw [idTrace_split 2147483646 2 serverInit] at hpair
  have hcnt := afterCalls_counter 2147483646 serverInit
    (by norm_num [serverInit]) (by norm_num [serverInit])
  have htail : (idTrace (afterCalls serverInit 2147483646) 2).Pairwise
      (· < ·) :=
    hpair.sublist (List.sublist_append_right _ _)
  simp only [idTrace, getNextClientID] at htail
  rw [List.pairwise_cons] at htail
  have hlt := htail.1
    (wrapInt32 ((afterCalls serverInit 2147483646).nextClientID + 1))
    (by simp)
  rw [hcnt] at hlt
  unfold wrapInt32 at hlt
  norm_num [serverInit] at hlt

/-- Claim C7 (amended): the id counter is initialized to `1` at
construction and each accept takes one atomic fetch-and-add; for as
long as the 32-bit counter has not wrapped past `INT_MAX`
(`nextClientID + n < 2^31`), the `n` ids handed out are strictly
increasing and never reused; and neither `disconnectClient` nor the
handler's cleanup ever touches the counter.  (The unamended claim
fails because `fetch_add` wraps at `INT_MAX`; see the
counterexample.) -/
theorem client_ids_increasing_until_wrap :
    serverInit.nextClientID = 1 ∧
    (∀ (s : ServerState) (n : Nat),
      -2147483648 ≤ s.nextClientID →
      s.nextClientID + (n : Int) < 2147483648 →
      (idTrace s n).Pairwise (· < ·)) ∧
    (∀ (s : ServerState) (n : Nat),
      -2147483648 ≤ s.nextClientID →
      s.nextClientID + (n : Int) < 2147483648 →
      (idTrace s n).Nodup) ∧
    (∀ (s : ServerState) (clientId : Int),
      (disconnectClient s clientId).2.nextClientID = s.nextClientID) ∧
    (∀ (s : ServerState) (clientId : Int) (ref : ConnRef),
      (handleClientCleanup s clientId ref).nextClientID
        = s.nextClientID) := by
  have hpair : ∀ (n : Nat) (s : ServerState),
      -2147483648 ≤ s.nextClientID →
      s.nextClientID + (n : Int) < 2147483648 →
      (idTrace s n).Pairwise (· < ·) := by
    intro n
    induction n with
    | zero =>
        intro s _ _
        simp [idTrace]
    | succ n ih =>
        intro s hlo hhi
        push_cast at hhi
        simp only [idTrace, getNextClientID]
        rw [List.pairwise_cons]
        have hw : wrapInt32 (s.nextClientID + 1) = s.nextClientID + 1 :=
          wrapInt32_eq_self (by omega) (by omega)
        have hb1 : -2147483648 ≤
            ({ s with nextClientID := wrapInt32 (s.nextClientID + 1) }
              : ServerState).nextClientID := by
          show -2147483648 ≤ wrapInt32 (s.nextClientID + 1)
          rw [hw]
          omega
        have hb2 : ({ s with nextClientID := wrapInt32 (s.nextClientID + 1) }
              : ServerState).nextClientID + (n : Int) < 2147483648 := by
          show wrapInt32 (s.nextClientID + 1) + (n : Int) < 2147483648
          rw [hw]
          omega
        refine ⟨?_, ih _ hb1 hb2⟩
        intro m hm
        have hle := idTrace_le_of_no_wrap n _ m hb1 hb2 hm
        have hle' : wrapInt32 (s.nextClientID + 1) ≤ m := hle
        rw [hw] at hle'
        omega
  refine ⟨rfl, fun s n hlo hhi => hpair n s hlo hhi, ?_, ?_,
    fun s clientId ref => rfl⟩
  · intro s n hlo hhi
    exact List.Pairwise.imp (fun h => ne_of_lt h) (hpair n s hlo hhi)
  · intro s clientId
    exact (disconnectClient_frame s clientId).2.2.1

/-- Witness for the amended C7: the first three ids handed out from a
freshly constructed server are strictly increasing and distinct. -/
theorem client_ids_increasing_until_wrap_witness :
    (idTrace serverInit 3).Pairwise (· < ·) ∧
    (idTrace serverInit 3).Nodup := by
  exact ⟨client_ids_increasing_until_wrap.2.1 serverInit 3
      (by norm_num [serverInit]) (by norm_num [serverInit]),
    client_ids_increasing_until_wrap.2.2.1 serverInit 3
      (by norm_num [serverInit]) (by norm_num [serverInit])⟩

/-! The session handler's observable behaviour (C4, C5, C8). -/

/-- Unfolding equation for one `sendLoop` iteration. -/
theorem sendLoop_cons (okWrites : Nat) (c : Char) (restBytes : List Char)
    (info : ClientRequestInfo) :
    sendLoop (okWrites + 1) (c :: restBytes) info
      = (c :: (sendLoop okWrites restBytes
            { info with bytesTransferred := info.bytesTransferred + 1 }).1,
         { info with bytesTransferred := info.bytesTransferred + 1 }
           :: (sendLoop okWrites restBytes
             { info with bytesTransferred := info.bytesTransferred + 1 }).2.1,
         (sendLoop okWrites restBytes
            { info with bytesTransferred := info.bytesTransferred + 1 }).2.2) :=
  rfl

/-- The wire and termination behaviour of `sendLoop`: the bytes sent
are the first `okWrites` of the payload, and the loop completes exactly
when the whole payload fits in the write budget. -/
theorem sendLoop_wire_spec : ∀ (content : List Char) (okWrites : Nat)
    (info : ClientRequestInfo),
    (sendLoop okWrites content info).1 = content.take okWrites ∧
    ((sendLoop okWrites content info).2.2 = true
      ↔ content.length ≤ okWrites) := by
  intro content
  induction content with
  | nil => intro okWrites info; simp [sendLoop]
  | cons c rest ih =>
      intro okWrites info
      cases okWrites with
      | zero => simp [sendLoop]
      | succ ok =>
          rw [sendLoop_cons]
          have := ih ok
            { info with bytesTransferred := info.bytesTransferred + 1 }
          refine ⟨?_, ?_⟩
          · rw [List.take_succ_cons]
            simp [this.1]
          · simp only [List.length_cons]
            rw [this.2]
            omega

/-- Every `ClientRequestInfo` snapshot produced by `sendLoop` keeps
`bytesTransferred <= bytesToTransfer`, provided the payload still to be
sent fits in the recorded total. -/
theorem sendLoop_trace_spec : ∀ (content : List Char) (okWrites : Nat)
    (info : ClientRequestInfo),
    info.bytesTransferred + content.length ≤ info.bytesToTransfer →
    ∀ x ∈ (sendLoop okWrites content info).2.1,
      x.bytesTransferred ≤ x.bytesToTransfer := by
  intro content
  induction content with
  | nil =>
      intro okWrites info h x hx
      simp [sendLoop] at hx
  | cons c rest ih =>
      intro okWrites info h x hx
      cases okWrites with
      | zero => simp [sendLoop] at hx
      | succ ok =>
          rw [sendLoop_cons] at hx
          simp only [List.mem_cons] at hx
          rcases hx with hx | hx
          · rw [hx]
            simp only [List.length_cons] at h
            simp
            omega
          · refine ih ok
              { info with bytesTransferred := info.bytesTransferred + 1 }
              ?_ x hx
            simp only [List.length_cons] at h
            simp
            omega

/-- Unfolding equation for `handleClient` with a parsed request and a
positive write budget. -/
theorem handleClient_some_succ (filename : List Char)
    (fs : List Char → Option (List Char)) (okWrites : Nat) :
    handleClient (some filename) fs (okWrites + 1)
      = ⟨(Nat.repr ((fs filename).getD []).length).data ++ [kDelimiter]
           ++ (sendLoop okWrites ((fs filename).getD [])
             ⟨filename, 0, ((fs filename).getD []).length⟩).1,
         (⟨[], 0, 0⟩ : ClientRequestInfo)
           :: (⟨filename, 0, ((fs filename).getD []).length⟩
                : ClientRequestInfo)
           :: (sendLoop okWrites ((fs filename).getD [])
             ⟨filename, 0, ((fs filename).getD []).length⟩).2.1,
         if (sendLoop okWrites ((fs filename).getD [])
              ⟨filename, 0, ((fs filename).getD []).length⟩).2.2
         then SessionOutcome.completed
         else SessionOutcome.writeError⟩ :=
  rfl

/-- Claim C8: at every observation point of a connection's
`ClientRequestInfo` — every value it takes under its progress lock —
`bytesTransferred <= bytesToTransfer` holds, and both counters are zero
from construction until the filename request has been parsed. -/
theorem progress_counters_invariant :
    ∀ (request : Option (List Char))
      (fs : List Char → Option (List Char)) (okWrites : Nat),
      (∀ info ∈ (handleClient request fs okWrites).infoTrace,
        info.bytesTransferred ≤ info.bytesToTransfer) ∧
      (handleClient request fs okWrites).infoTrace.head?
        = some (⟨[], 0, 0⟩ : ClientRequestInfo) ∧
      (request = none →
        (handleClient request fs okWrites).infoTrace
          = [(⟨[], 0, 0⟩ : ClientRequestInfo)]) := by
  intro request fs okWrites
  cases request with
  | none =>
      refine ⟨?_, rfl, fun _ => rfl⟩
      intro x hx
      simp [handleClient] at hx
      rw [hx]
  | some filename =>
      cases okWrites with
      | zero =>
          refine ⟨?_, rfl, fun h => nomatch h⟩
          intro x hx
          simp [handleClient] at hx
          rcases hx with h | h
          · rw [h]
          · rw [h]
            simp
      | succ ok =>
          refine ⟨?_, ?_, fun h => nomatch h⟩
          · intro x hx
            rw [handleClient_some_succ] at hx
            simp only [List.mem_cons] at hx
            rcases hx with h | h | h
            · rw [h]
            · rw [h]
              exact Nat.zero_le _
            · exact sendLoop_trace_spec ((fs filename).getD []) ok
                ⟨filename, 0, ((fs filename).getD []).length⟩
                (by simp) x h
          · rw [handleClient_some_succ]
            rfl

/-- Witness for C8: the trace of a session that reads `"f"`, finds two
bytes and sends them all satisfies the counter invariant; a session
whose request read fails observes only the all-zero record. -/
theorem progress_counters_invariant_witness :
    (∀ info ∈ (handleClient (some ['f'])
        (fun _ => some ['h', 'i']) 3).infoTrace,
      info.bytesTransferred ≤ info.bytesToTransfer) ∧
    (handleClient none (fun _ => none) 3).infoTrace
      = [(⟨[], 0, 0⟩ : ClientRequestInfo)] := by
  exact ⟨(progress_counters_invariant (some ['f'])
      (fun _ => some ['h', 'i']) 3).1,
    (progress_counters_invariant none (fun _ => none) 3).2.2 rfl⟩

/-- Claim C4: a session whose requested file cannot be opened is not an
error: the handler sends the header `"0"` plus the delimiter and zero
payload bytes, and the session runs to its normal end (the scope-exit
cleanup, not an error return). -/
theorem missing_file_zero_length_response :
    ∀ (filename : List Char) (fs : List Char → Option (List Char))
      (okWrites : Nat),
      fs filename = none → 1 ≤ okWrites →
      (handleClient (some filename) fs okWrites).wire
        = ['0', kDelimiter] ∧
      (handleClient (some filename) fs okWrites).outcome
        = SessionOutcome.completed := by
  intro filename fs okWrites hfs hok
  obtain ⟨ok, rfl⟩ : ∃ ok, okWrites = ok + 1 := ⟨okWrites - 1, by omega⟩
  have h0 : (Nat.repr 0).data = ['0'] := rfl
  constructor
  · rw [handleClient_some_succ]
    simp [hfs, sendLoop, h0]
  · rw [handleClient_some_succ]
    simp [hfs, sendLoop]

/-- Witness for C4: a request for an unopenable file with a working
socket produces exactly `"0#"` on the wire and a completed session. -/
theorem missing_file_zero_length_response_witness :
    (handleClient (some ['m']) (fun _ => none) 1).wire
      = ['0', kDelimiter] ∧
    (handleClient (some ['m']) (fun _ => none) 1).outcome
      = SessionOutcome.completed :=
  missing_file_zero_length_response ['m'] (fun _ => none) 1 rfl
    (by decide)

/-- Claim C5: when the requested file opens with `L` content bytes, the
session writes exactly the decimal ASCII representation of `L`, the
delimiter, then the `L` file bytes in order; a write error at any point
aborts the send loop without sending further bytes. -/
theorem serving_wire_format :
    ∀ (filename : List Char) (fs : List Char → Option (List Char))
      (content : List Char) (okWrites : Nat),
      fs filename = some content →
      (content.length + 1 ≤ okWrites →
        (handleClient (some filename) fs okWrites).wire
          = (Nat.repr content.length).data ++ kDelimiter :: content ∧
        (handleClient (some filename) fs okWrites).outcome
          = SessionOutcome.completed) ∧
      (∀ j, okWrites = j + 1 → j < content.length →
        (handleClient (some filename) fs okWrites).wire
          = (Nat.repr content.length).data ++ kDelimiter :: content.take j ∧
        (handleClient (some filename) fs okWrites).outcome
          = SessionOutcome.writeError) ∧
      (okWrites = 0 →
        (handleClient (some filename) fs okWrites).wire = [] ∧
        (handleClient (some filename) fs okWrites).outcome
          = SessionOutcome.writeError) := by
  intro filename fs content okWrites hfs
  refine ⟨?_, ?_, ?_⟩
  · intro hbudget
    obtain ⟨ok, rfl⟩ : ∃ ok, okWrites = ok + 1 := ⟨okWrites - 1, by omega⟩
    have hws := sendLoop_wire_spec content ok ⟨filename, 0, content.length⟩
    have hlen : content.length ≤ ok := by omega
    constructor
    · rw [handleClient_some_succ]
      simp only [hfs, Option.getD_some]
      rw [hws.1, List.take_of_length_le hlen, List.append_assoc,
        List.singleton_append]
    · rw [handleClient_some_succ]
      simp only [hfs, Option.getD_some]
      rw [if_pos (hws.2.mpr hlen)]
  · intro j hj hjlen
    subst hj
    have hws := sendLoop_wire_spec content j ⟨filename, 0, content.length⟩
    have hnot : ¬ content.length ≤ j := by omega
    constructor
    · rw [handleClient_some_succ]
      simp only [hfs, Option.getD_some]
      rw [hws.1, List.append_assoc, List.singleton_append]
    · rw [handleClient_some_succ]
      simp only [hfs, Option.getD_some]
      rw [if_neg (fun htrue => hnot (hws.2.mp htrue))]
  · intro h0
    subst h0
    exact ⟨rfl, rfl⟩

/-- Witness for C5: a two-byte file is framed as `"2#hi"` when every
write succeeds; with only two successful writes the loop aborts after
`"2#h"`; with none the wire stays empty. -/
theorem serving_wire_format_witness :
    (handleClient (some ['f']) (fun _ => some ['h', 'i']) 3).wire
      = (Nat.repr 2).data ++ kDelimiter :: ['h', 'i'] ∧
    (handleClient (some ['f']) (fun _ => some ['h', 'i']) 3).outcome
      = SessionOutcome.completed ∧
    (handleClient (some ['f']) (fun _ => some ['h', 'i']) 2).wire
      = (Nat.repr 2).data ++ kDelimiter :: ['h'] ∧
    (handleClient (some ['f']) (fun _ => some ['h', 'i']) 2).outcome
      = SessionOutcome.writeError ∧
    (handleClient (some ['f']) (fun _ => some ['h', 'i']) 0).wire = [] := by
  have h3 := serving_wire_format ['f'] (fun _ => some ['h', 'i'])
    ['h', 'i'] 3 rfl
  have h2 := serving_wire_format ['f'] (fun _ => some ['h', 'i'])
    ['h', 'i'] 2 rfl
  have hz := serving_wire_format ['f'] (fun _ => some ['h', 'i'])
    ['h', 'i'] 0 rfl
  have ha := h3.1 (by decide)
  have hb := h2.2.1 1 rfl (by decide)
  exact ⟨ha.1, ha.2, hb.1, hb.2, (hz.2.2 rfl).1⟩

/-! Shutdown, drain and join (C9). -/

theorem disconnectAll_registry : ∀ (ids : List Int) (s : ServerState),
    (disconnectAll s ids).clientConnections = s.clientConnections := by
  intro ids
  induction ids with
  | nil => intro s; rfl
  | cons clientId rest ih =>
      intro s
      simp only [disconnectAll]
      rw [ih, (disconnectClient_frame s clientId).1]

theorem disconnectAll_threads : ∀ (ids : List Int) (s : ServerState),
    (disconnectAll s ids).clientThreads = s.clientThreads := by
  intro ids
  induction ids with
  | nil => intro s; rfl
  | cons clientId rest ih =>
      intro s
      simp only [disconnectAll]
      rw [ih, (disconnectClient_frame s clientId).2.1]

/-- One `disconnectClient` preserves "the heap entry under `ref` is not
an open socket" (its update never reopens anything). -/
theorem disconnectClient_preserves_not_opened (s : ServerState)
    (clientId : Int) (ref : ConnRef)
    (h : ∀ conn, assocLookup s.conns ref = some conn →
      conn.sockState ≠ SockState.opened) :
    ∀ conn, assocLookup (disconnectClient s clientId).2.conns ref
      = some conn → conn.sockState ≠ SockState.opened := by
  intro conn hconn
  rcases hl : assocLookup s.clientConnections clientId with _ | ref'
  · simp only [disconnectClient, hl] at hconn
    exact h conn hconn
  · simp only [disconnectClient, hl] at hconn
    by_cases hr : ref = ref'
    · subst hr
      rw [assocLookup_assocUpdate_self] at hconn
      rcases ho : assocLookup s.conns ref with _ | conn0
      · rw [ho] at hconn
        simp at hconn
      · rw [ho] at hconn
        simp only [Option.map_some'] at hconn
        cases hconn
        exact shutdown_update_not_opened conn0
    · rw [assocLookup_assocUpdate_ne _ _ _ _ hr] at hconn
      exact h conn hconn

/-- `disconnectClient` on a registered id leaves that id's connection
with a non-open socket. -/
theorem disconnectClient_not_opened_self (s : ServerState)
    (clientId : Int) (ref : ConnRef)
    (href : assocLookup s.clientConnections clientId = some ref) :
    ∀ conn, assocLookup (disconnectClient s clientId).2.conns ref
      = some conn → conn.sockState ≠ SockState.opened := by
  intro conn hconn
  simp only [disconnectClient, href] at hconn
  rw [assocLookup_assocUpdate_self] at hconn
  rcases ho : assocLookup s.conns ref with _ | conn0
  · rw [ho] at hconn
    simp at hconn
  · rw [ho] at hconn
    simp only [Option.map_some'] at hconn
    cases hconn
    exact shutdown_update_not_opened conn0

theorem disconnectAll_preserves_not_opened :
    ∀ (ids : List Int) (s : ServerState) (ref : ConnRef),
      (∀ conn, assocLookup s.conns ref = some conn →
        conn.sockState ≠ SockState.opened) →
      ∀ conn, assocLookup (disconnectAll s ids).conns ref = some conn →
        conn.sockState ≠ SockState.opened := by
  intro ids
  induction ids with
  | nil => intro s ref h; exact h
  | cons clientId rest ih =>
      intro s ref h
      exact ih _ ref (disconnectClient_preserves_not_opened s clientId ref h)

/-- After draining a list of ids that contains `clientId`, the
connection registered under `clientId` no longer has an open socket. -/
theorem disconnectAll_not_opened :
    ∀ (ids : List Int) (s : ServerState) (clientId : Int) (ref : ConnRef),
      clientId ∈ ids →
      assocLookup s.clientConnections clientId = some ref →
      ∀ conn, assocLookup (disconnectAll s ids).conns ref = some conn →
        conn.sockState ≠ SockState.opened := by
  intro ids
  induction ids with
  | nil =>
      intro s clientId ref hmem
      simp at hmem
  | cons hd rest ih =>
      intro s clientId ref hmem href
      simp only [List.mem_cons] at hmem
      simp only [disconnectAll]
      rcases hmem with heq | hmem
      · subst heq
        exact disconnectAll_preserves_not_opened rest _ ref
          (disconnectClient_not_opened_self s clientId ref href)
      · refine ih _ clientId ref hmem ?_
        rw [(disconnectClient_frame s hd).1]
        exact href

/-- Claim C9: `stop()` closes the listening endpoint; the blocked
accept then completes with the operation-aborted condition and the
accept loop exits at once; `run()` then calls disconnect on every
currently registered client (leaving no socket open) and joins every
spawned session thread before returning — it never returns with an
unjoined session thread. -/
theorem stop_drain_join :
    (∀ s : ServerState, (stop s).acceptorOpen = false) ∧
    (∀ (s : ServerState) (rest : List AcceptEvent),
      s.acceptorOpen = true →
      acceptLoop s (AcceptEvent.stopped :: rest) = stop s) ∧
    (∀ (s : ServerState) (events : List AcceptEvent)
       (clientId : Int) (ref : ConnRef) (conn : ClientConnection),
      assocLookup (serverRun s events).clientConnections clientId
        = some ref →
      assocLookup (serverRun s events).conns ref = some conn →
      conn.sockState ≠ SockState.opened) ∧
    (∀ (s : ServerState) (events : List AcceptEvent),
      (serverRun s events).clientThreads
        = (acceptLoop { s with acceptorOpen := true } events).clientThreads.map
            (fun t => { t with joined := true }) ∧
      ∀ t ∈ (serverRun s events).clientThreads, t.joined = true) := by
  refine ⟨fun s => rfl, ?_, ?_, ?_⟩
  · intro s rest h
    simp [acceptLoop, h]
  · intro s events clientId ref conn href hconn
    have hreg : (serverRun s events).clientConnections
        = (acceptLoop { s with acceptorOpen := true } events).clientConnections := by
      unfold serverRun joinAllThreads drainClients
      exact disconnectAll_registry _ _
    rw [hreg] at href
    have hmem : clientId ∈ getConnectedClients
        (acceptLoop { s with acceptorOpen := true } events) :=
      assocLookup_mem_keys href
    exact disconnectAll_not_opened _ _ clientId ref hmem href conn hconn
  · intro s events
    constructor
    · unfold serverRun joinAllThreads drainClients
      simp only
      rw [disconnectAll_threads]
    · intro t ht
      unfold serverRun joinAllThreads at ht
      simp only [List.mem_map] at ht
      obtain ⟨t0, -, rfl⟩ := ht
      rfl

/-- Witness for C9: starting from a fresh server, one client connects
and then `stop()` closes the acceptor — the loop breaks on the aborted
accept, the drained run leaves the one registered connection shut
down, and every spawned thread is joined when `run` returns. -/
theorem stop_drain_join_witness :
    acceptLoop { serverInit with acceptorOpen := true }
        [AcceptEvent.stopped]
      = stop { serverInit with acceptorOpen := true } ∧
    (⟨1, {}, SockState.shutdownBoth⟩ : ClientConnection).sockState
      ≠ SockState.opened ∧
    ∀ t ∈ (serverRun serverInit
        [AcceptEvent.connected, AcceptEvent.stopped]).clientThreads,
      t.joined = true := by
  refine ⟨stop_drain_join.2.1 _ [] rfl, ?_,
    (stop_drain_join.2.2.2 serverInit
      [AcceptEvent.connected, AcceptEvent.stopped]).2⟩
  exact stop_drain_join.2.2.1 serverInit
    [AcceptEvent.connected, AcceptEvent.stopped] 1 0
    ⟨1, {}, SockState.shutdownBoth⟩ (by decide) (by decide)

end FileTransfer
